import Mathlib

set_option linter.all false

/-!
Verification development for the `aceso` package, a shallow embedding of the two
source files `aceso/decay.py` and `aceso/gravity.py`.

Modelling choices, stated once here and referred to from the definitions:

* IEEE-754 float64 values are modelled by `EF`: an exact rational number
  (`EF.fin q`) together with the three sentinel values NaN (`EF.nan`),
  positive infinity (`EF.pinf`) and negative infinity (`EF.ninf`).  Finite
  arithmetic is exact rational arithmetic (rounding is not modelled); the
  sentinel behaviour of every operation the source performs (multiplication,
  addition, division, reciprocal, comparison, `np.maximum`, `np.minimum`,
  `np.clip`, `np.power`, `np.nansum`) is modelled faithfully after IEEE-754 /
  numpy semantics.  Negative zero is not modelled (the source only feeds
  nonnegative distances into the places where the sign of zero could matter).

* numpy arrays are rectangular, so a 2-D float64 array of shape (m, n) is
  modelled as a function `Fin m → Fin n → EF` and a 1-D array as
  `Fin m → EF`; the 1-D result of `calculate_accessibility_scores` is
  returned as a `List EF` of length `m` (row order), mirroring the returned
  1-D array.

* The transcendental kernels `np.exp`, `np.cos` and the constant `math.pi`
  have no exact rational values; they are modelled by abstract rational
  kernels (`expF cosF : ℚ → ℚ`, `piq : ℚ`) supplied as parameters, while the
  IEEE sentinel behaviour of `np.exp` / `np.cos` (for example
  `exp(-inf) = 0`, `cos(±inf) = NaN`) is fixed concretely by `EF.expE` /
  `EF.cosE`.  The claims settled below only depend on the sentinel behaviour
  of these kernels.

* `suboptimality_exponent` is a float in the source with default value
  `1.0`; every engine configured by the source (`TwoStepFCA`,
  `ThreeStepFCA`, and the defaults of `GravityModel`) leaves it at `1.0`.
  It is modelled as a natural-number exponent (`np.power` by repeated IEEE
  multiplication, with `x ** 0 = 1.0` including `nan ** 0 = 1.0`, exactly as
  numpy evaluates integral float powers on these values).
-/

/-- Extended float: an exact rational plus the IEEE sentinels NaN, +inf, -inf. -/
inductive EF : Type where
  | nan : EF
  | pinf : EF
  | ninf : EF
  | fin : ℚ → EF
deriving DecidableEq, Repr

namespace EF

/-- Model of `np.isnan` on a single value. -/
def isNan : EF → Bool
  | nan => true
  | _ => false

/-- Model of `np.isinf` on a single value (true for both infinities). -/
def isInf : EF → Bool
  | pinf => true
  | ninf => true
  | _ => false

/-- The rational carried by a finite value; sentinels are sent to 0.  Used only
in theorem statements (to speak about the finite part of a sum), never in the
embedding of the source itself. -/
def toQ : EF → ℚ
  | fin q => q
  | _ => 0

/-- IEEE negation. -/
def neg : EF → EF
  | nan => nan
  | pinf => ninf
  | ninf => pinf
  | fin q => fin (-q)

/-- IEEE addition (NaN propagates; `inf + (-inf) = NaN`). -/
def add : EF → EF → EF
  | nan, _ => nan
  | _, nan => nan
  | pinf, ninf => nan
  | ninf, pinf => nan
  | pinf, _ => pinf
  | _, pinf => pinf
  | ninf, _ => ninf
  | _, ninf => ninf
  | fin a, fin b => fin (a + b)

/-- IEEE subtraction, `x - y = x + (-y)`. -/
def sub (x y : EF) : EF := add x (neg y)

/-- IEEE multiplication (NaN propagates; `0 * inf = NaN`). -/
def mul : EF → EF → EF
  | nan, _ => nan
  | _, nan => nan
  | pinf, pinf => pinf
  | pinf, ninf => ninf
  | ninf, pinf => ninf
  | ninf, ninf => pinf
  | pinf, fin q => if 0 < q then pinf else if q < 0 then ninf else nan
  | ninf, fin q => if 0 < q then ninf else if q < 0 then pinf else nan
  | fin q, pinf => if 0 < q then pinf else if q < 0 then ninf else nan
  | fin q, ninf => if 0 < q then ninf else if q < 0 then pinf else nan
  | fin a, fin b => fin (a * b)

/-- IEEE division without negative zero: `x / 0` for positive `x` is `+inf`,
`0 / 0` is NaN, `finite / inf` is 0, `inf / inf` is NaN, `inf / 0 = inf`
(division by positive zero). -/
def div : EF → EF → EF
  | nan, _ => nan
  | _, nan => nan
  | pinf, pinf => nan
  | pinf, ninf => nan
  | ninf, pinf => nan
  | ninf, ninf => nan
  | pinf, fin q => if q < 0 then ninf else pinf
  | ninf, fin q => if q < 0 then pinf else ninf
  | fin _, pinf => fin 0
  | fin _, ninf => fin 0
  | fin a, fin b =>
      if b = 0 then (if a = 0 then nan else if 0 < a then pinf else ninf)
      else fin (a / b)

/-- Model of `np.reciprocal` on float64: `1 / x`, with `1/0 = +inf` (positive
zero), `1/inf = 0`, `1/NaN = NaN`. -/
def reciprocal : EF → EF
  | nan => nan
  | pinf => fin 0
  | ninf => fin 0
  | fin q => if q = 0 then pinf else fin (1 / q)

/-- Model of `np.power(x, -1.0)` on float64, which coincides with `1 / x` on
every value: `0.0 ** -1 = +inf`, `inf ** -1 = 0`, `NaN ** -1 = NaN`. -/
def powNegOne (x : EF) : EF := div (fin 1) x

/-- Model of `np.power(x, e)` for a nonnegative integral float exponent, by
repeated IEEE multiplication; `x ** 0 = 1.0` for every `x` (including
`NaN ** 0 = 1.0` and `inf ** 0 = 1.0`, as numpy evaluates them). -/
def pow (x : EF) : ℕ → EF
  | 0 => fin 1
  | n + 1 => mul (pow x n) x

/-- IEEE `<=` comparison as a Bool: any comparison with NaN is false. -/
def le : EF → EF → Bool
  | nan, _ => false
  | _, nan => false
  | ninf, _ => true
  | _, ninf => false
  | _, pinf => true
  | pinf, _ => false
  | fin a, fin b => decide (a ≤ b)

/-- Model of `np.maximum` (binary, elementwise): NaN propagates. -/
def maximum : EF → EF → EF
  | nan, _ => nan
  | _, nan => nan
  | pinf, _ => pinf
  | _, pinf => pinf
  | ninf, y => y
  | x, ninf => x
  | fin a, fin b => fin (max a b)

/-- Model of `np.minimum` (binary, elementwise): NaN propagates. -/
def minimum : EF → EF → EF
  | nan, _ => nan
  | _, nan => nan
  | ninf, _ => ninf
  | _, ninf => ninf
  | pinf, y => y
  | x, pinf => x
  | fin a, fin b => fin (min a b)

/-- Model of `np.clip(x, lo, hi)` for finite bounds, which numpy documents as
`np.minimum(hi, np.maximum(x, lo))`; NaN propagates, `+inf` clips to `hi`. -/
def clip (x : EF) (lo hi : ℚ) : EF := minimum (fin hi) (maximum x (fin lo))

/-- Model of `np.exp` with an abstract rational kernel `expF` for finite
inputs; the IEEE sentinel behaviour `exp(NaN) = NaN`, `exp(+inf) = +inf`,
`exp(-inf) = 0` is concrete. -/
def expE (expF : ℚ → ℚ) : EF → EF
  | nan => nan
  | pinf => pinf
  | ninf => fin 0
  | fin q => fin (expF q)

/-- Model of `np.cos` with an abstract rational kernel `cosF` for finite
inputs; the IEEE sentinel behaviour `cos(NaN) = NaN`, `cos(±inf) = NaN` is
concrete. -/
def cosE (cosF : ℚ → ℚ) : EF → EF
  | nan => nan
  | pinf => nan
  | ninf => nan
  | fin q => fin (cosF q)

/-- NaN-skipping used by `np.nansum`: a NaN summand is treated as 0. -/
def skipNan (x : EF) : EF := if x.isNan then fin 0 else x

end EF

/-- Model of `np.nansum` over a 1-D slice: NaN entries are treated as zero and
the rest are added with IEEE addition (`np.nansum` of an empty or all-NaN
slice is 0.0). -/
def nansumList (l : List EF) : EF :=
  l.foldr (fun x acc => EF.add (EF.skipNan x) acc) (EF.fin 0)

/-! `decay.py`: the catalog of decay transforms.  Each transform keeps the
source's name and argument order (`distance_array` first, then the shape
parameter).  The transforms are elementwise; broadcasting an array argument
is function application entry by entry. -/

/-- Source `decay.parabolic_decay(distance_array, scale)`:
`np.maximum((scale**2 - distance_array**2) / scale**2, zeros)`. -/
def parabolic_decay (distance_array : EF) (scale : ℚ) : EF :=
  EF.maximum
    (EF.div (EF.sub (EF.fin (scale ^ 2)) (EF.pow distance_array 2)) (EF.fin (scale ^ 2)))
    (EF.fin 0)

/-- Source `decay.gaussian_decay(distance_array, sigma)`:
`np.exp(-(distance_array**2 / (2.0 * sigma**2)))`, with the finite kernel of
`np.exp` abstracted as `expF`. -/
def gaussian_decay (expF : ℚ → ℚ) (distance_array : EF) (sigma : ℚ) : EF :=
  EF.expE expF (EF.neg (EF.div (EF.pow distance_array 2) (EF.fin (2 * sigma ^ 2))))

/-- Source `decay.raised_cosine_decay(distance_array, scale)`:
`masked = np.clip(distance_array, 0.0, scale)` followed by
`(1.0 + np.cos((masked / scale) * math.pi)) / 2.0`, with the finite kernel of
`np.cos` abstracted as `cosF` and the float constant `math.pi` as `piq`. -/
def raised_cosine_decay (cosF : ℚ → ℚ) (piq : ℚ) (distance_array : EF) (scale : ℚ) : EF :=
  let masked_array := EF.clip distance_array 0 scale
  EF.div
    (EF.add (EF.fin 1) (EF.cosE cosF (EF.mul (EF.div masked_array (EF.fin scale)) (EF.fin piq))))
    (EF.fin 2)

/-- Source `decay.uniform_decay(distance_array, scale)`:
`(distance_array <= scale).astype(np.float64)`.  Note that the IEEE
comparison makes NaN input produce 0.0, not NaN. -/
def uniform_decay (distance_array : EF) (scale : ℚ) : EF :=
  if EF.le distance_array (EF.fin scale) then EF.fin 1 else EF.fin 0

/-! `gravity.py`: the gravity-model engine. -/

/-- Configuration of `gravity.GravityModel` after construction: the bound
one-argument decay function, the Huff-normalization flag, and the
suboptimality exponent (modelled as a natural number; every engine the source
configures uses the default `1.0`). -/
structure GravityModel where
  decay_function : EF → EF
  huff_normalization : Bool
  suboptimality_exponent : ℕ

/-- One entry of the local `weights` array in
`GravityModel._calculate_interaction_probabilities`:
`weights = np.power(distance_matrix, -1)` followed by
`weights[np.isinf(weights)] = 10**8`. -/
def huffWeights {m n : ℕ} (distance_matrix : Fin m → Fin n → EF) : Fin m → Fin n → EF :=
  fun i j =>
    let w := EF.powNegOne (distance_matrix i j)
    if w.isInf then EF.fin (10 ^ 8) else w

/-- Source `GravityModel._calculate_interaction_probabilities(distance_matrix)`:
`weights / np.nansum(weights, axis=1)[:, np.newaxis]` (row-normalized
inverse-distance weights with the zero-distance sentinel `10**8`). -/
def calculate_interaction_probabilities {m n : ℕ}
    (distance_matrix : Fin m → Fin n → EF) : Fin m → Fin n → EF :=
  fun i j =>
    EF.div (huffWeights distance_matrix i j)
      (nansumList (List.ofFn fun k => huffWeights distance_matrix i k))

/-- The local `demand_matrix` of `GravityModel._calculate_demand_potentials`:
`demand_array.reshape(-1, 1) * self.decay_function(distance_matrix)`,
multiplied elementwise by the interaction probabilities when
`huff_normalization` is set. -/
def GravityModel.demandMatrix (gm : GravityModel) {m n : ℕ}
    (distance_matrix : Fin m → Fin n → EF) (demand_array : Fin m → EF) :
    Fin m → Fin n → EF :=
  let dm := fun i j => EF.mul (demand_array i) (gm.decay_function (distance_matrix i j))
  if gm.huff_normalization then
    fun i j => EF.mul (dm i j) (calculate_interaction_probabilities distance_matrix i j)
  else dm

/-- Source `GravityModel._calculate_demand_potentials(distance_matrix, demand_array)`:
`np.nansum(demand_matrix, axis=0)` (column sums, skipping NaN). -/
def GravityModel.calculate_demand_potentials (gm : GravityModel) {m n : ℕ}
    (distance_matrix : Fin m → Fin n → EF) (demand_array : Fin m → EF) : Fin n → EF :=
  fun j => nansumList (List.ofFn fun i => gm.demandMatrix distance_matrix demand_array i j)

/-- Lines 157-159 of `gravity.py`:
`inverse_demands = np.reciprocal(demand_potentials)` followed by
`inverse_demands[np.isinf(inverse_demands)] = 0.0`. -/
def invertedPotentials {n : ℕ} (demand_potentials : Fin n → EF) : Fin n → EF :=
  fun j =>
    let inv := EF.reciprocal (demand_potentials j)
    if inv.isInf then EF.fin 0 else inv

/-- The local `access_ratio_matrix` of
`GravityModel.calculate_accessibility_scores`:
`supply_array * inverse_demands`, then elementwise
`* np.power(self.decay_function(distance_matrix), self.suboptimality_exponent)`,
then elementwise `* interaction_probabilities` when `huff_normalization` is
set (same grouping and order as the source). -/
def GravityModel.accessRatioMatrix (gm : GravityModel) {m n : ℕ}
    (distance_matrix : Fin m → Fin n → EF)
    (demand_array : Fin m → EF) (supply_array : Fin n → EF) : Fin m → Fin n → EF :=
  let inverse_demands :=
    invertedPotentials (gm.calculate_demand_potentials distance_matrix demand_array)
  let arm := fun i j =>
    EF.mul (EF.mul (supply_array j) (inverse_demands j))
      (EF.pow (gm.decay_function (distance_matrix i j)) gm.suboptimality_exponent)
  if gm.huff_normalization then
    fun i j => EF.mul (arm i j) (calculate_interaction_probabilities distance_matrix i j)
  else arm

/-- Source `GravityModel.calculate_accessibility_scores(distance_matrix,
demand_array=None, supply_array=None)`: omitted weight vectors default to
all-ones of the matching length, and the result is
`np.nansum(access_ratio_matrix, axis=1)` (row sums, skipping NaN), one score
per demand location. -/
def GravityModel.calculate_accessibility_scores (gm : GravityModel) {m n : ℕ}
    (distance_matrix : Fin m → Fin n → EF)
    (demand_array : Option (Fin m → EF)) (supply_array : Option (Fin n → EF)) : List EF :=
  let demand := demand_array.getD (fun _ => EF.fin 1)
  let supply := supply_array.getD (fun _ => EF.fin 1)
  List.ofFn fun i =>
    nansumList (List.ofFn fun j => gm.accessRatioMatrix distance_matrix demand supply i j)

/-- Source `gravity.TwoStepFCA(radius)`: the engine constructed with
`decay_function='uniform'`, `decay_params={'scale': radius}`.  Binding the
`scale` keyword onto `decay.uniform_decay` yields the one-argument function
`d ↦ uniform_decay d radius`; `huff_normalization` is off and the
suboptimality exponent is the default `1.0`. -/
def TwoStepFCA (radius : ℚ) : GravityModel :=
  { decay_function := fun d => uniform_decay d radius
    huff_normalization := false
    suboptimality_exponent := 1 }

/-- Source `gravity.ThreeStepFCA(decay_function, decay_params)`: the engine
constructed with the caller's bound decay function, `huff_normalization=True`
and the default suboptimality exponent `1.0`. -/
def ThreeStepFCA (decay_function : EF → EF) : GravityModel :=
  { decay_function := decay_function
    huff_normalization := true
    suboptimality_exponent := 1 }

/-! Model of `GravityModel._bind_decay_function_parameters` (construction-time
parameter validation).  A Python callable's signature is modelled by the
ordered list of its parameter names (`inspect.signature(f).parameters`), the
`decay_params` dict by an association list in insertion order (Python dicts
preserve it), and `functools.partial(f, **valid_params)` by recording the
bound pairs. -/

/-- The outcome of a successful bind: the warnings issued (one per supplied
parameter the function does not accept, in iteration order) and the
keyword arguments bound onto the decay function. -/
structure BindOutcome where
  warnings : List String
  bound_params : List (String × ℚ)
deriving DecidableEq, Repr

/-- Source `GravityModel._bind_decay_function_parameters` (Python 3 branch):
`missing_params = {k for k in list(signature.parameters)[1:] if k not in decay_params}`,
`valid_params = {k: v for k, v in decay_params.items() if k in signature.parameters}`,
raise `ValueError` naming `missing_params` when nonempty, warn for each
supplied parameter not in `valid_params`, and bind `valid_params`. -/
def bind_decay_function_parameters (paramNames : List String)
    (decay_params : List (String × ℚ)) : Except (List String) BindOutcome :=
  let missing_params :=
    (paramNames.drop 1).filter fun k => decide (k ∉ decay_params.map Prod.fst)
  let valid_params := decay_params.filter fun kv => decide (kv.1 ∈ paramNames)
  if missing_params = [] then
    .ok { warnings :=
            (decay_params.filter fun kv => decide (kv.1 ∉ valid_params.map Prod.fst)).map
              Prod.fst
          bound_params := valid_params }
  else
    .error missing_params

/-- A read of `k in d` on the Python dict `d`: the truth value together with
the dict contents the operation leaves behind (reads leave them unchanged by
construction of this operation; the theorem about the state-passing
translation below shows the whole bind does, too). -/
def dictContains (d : List (String × ℚ)) (k : String) : Bool × List (String × ℚ) :=
  (decide (k ∈ d.map Prod.fst), d)

/-- A read of `d.items()` on the Python dict `d`. -/
def dictItems (d : List (String × ℚ)) : List (String × ℚ) × List (String × ℚ) :=
  (d, d)

/-- One iteration of the set comprehension building `missing_params`:
membership is tested against the current dict state, and the key is collected
when absent. -/
def missingStep (acc : List String × List (String × ℚ)) (k : String) :
    List String × List (String × ℚ) :=
  let r := dictContains acc.2 k
  (if r.1 then acc.1 else acc.1 ++ [k], r.2)

/-- State-passing translation of `_bind_decay_function_parameters`: the
`decay_params` dict is threaded through every operation the source performs
on it (two comprehensions and the warning loop, all reads), and the final
dict contents are returned alongside the result.  The shape follows the
source: build `missing_params` by iterating `list(signature.parameters)[1:]`,
build `valid_params` from `decay_params.items()`, raise when something is
missing, otherwise warn over `decay_params` and bind. -/
def bind_decay_function_parameters_state (paramNames : List String)
    (decay_params : List (String × ℚ)) :
    Except (List String) BindOutcome × List (String × ℚ) :=
  let res1 := (paramNames.drop 1).foldl missingStep ([], decay_params)
  let missing_params := res1.1
  let r2 := dictItems res1.2
  let valid_params := r2.1.filter fun kv => decide (kv.1 ∈ paramNames)
  if missing_params = [] then
    let r3 := dictItems r2.2
    let warning_params :=
      (r3.1.filter fun kv => decide (kv.1 ∉ valid_params.map Prod.fst)).map Prod.fst
    (.ok { warnings := warning_params, bound_params := valid_params }, r3.2)
  else
    (.error missing_params, r2.2)

/-! Sample data of the repository's test suite (`tests/test_gravity.py`):
the 3 x 2 distance matrix `[[5, 5], [10, 0], [15, 15]]`. -/

/-- The distance matrix `np.array([[5.0, 5.0], [10.0, 0.0], [15.0, 15.0]])`
used by the repository's tests: rows are demand locations, columns supply
locations. -/
def sampleDistanceMatrix : Fin 3 → Fin 2 → EF :=
  ![![.fin 5, .fin 5], ![.fin 10, .fin 0], ![.fin 15, .fin 15]]

/-! Helper lemmas about the `EF` operations and `nansumList`. -/

/-- A value that is NaN or finite. -/
def FinOrNan (x : EF) : Prop := x = EF.nan ∨ ∃ q : ℚ, x = EF.fin q

/-- A value that is NaN or a nonnegative finite value. -/
def NNVal (x : EF) : Prop := x = EF.nan ∨ ∃ q : ℚ, 0 ≤ q ∧ x = EF.fin q

theorem NNVal.finOrNan {x : EF} (h : NNVal x) : FinOrNan x := by
  rcases h with rfl | ⟨q, _, rfl⟩
  · exact Or.inl rfl
  · exact Or.inr ⟨q, rfl⟩

theorem NNVal.toQ_nonneg {x : EF} (h : NNVal x) : 0 ≤ x.toQ := by
  rcases h with rfl | ⟨q, hq, rfl⟩
  · simp [EF.toQ]
  · simpa [EF.toQ] using hq

theorem EF.mul_nan_right (x : EF) : EF.mul x EF.nan = EF.nan := by
  cases x <;> rfl

theorem EF.mul_fin (a b : ℚ) : EF.mul (EF.fin a) (EF.fin b) = EF.fin (a * b) := rfl

theorem NNVal.mul {x y : EF} (hx : NNVal x) (hy : NNVal y) : NNVal (EF.mul x y) := by
  rcases hx with rfl | ⟨a, ha, rfl⟩ <;> rcases hy with rfl | ⟨b, hb, rfl⟩
  · exact Or.inl rfl
  · exact Or.inl rfl
  · exact Or.inl (EF.mul_nan_right _)
  · exact Or.inr ⟨a * b, mul_nonneg ha hb, rfl⟩

theorem EF.pow_fin (q : ℚ) (n : ℕ) : EF.pow (EF.fin q) n = EF.fin (q ^ n) := by
  induction n with
  | zero => simp [EF.pow]
  | succ k ih => simp [EF.pow, ih, EF.mul, pow_succ]

theorem EF.pow_nan {n : ℕ} (hn : 1 ≤ n) : EF.pow EF.nan n = EF.nan := by
  cases n with
  | zero => exact absurd hn (by simp)
  | succ k => simp [EF.pow, EF.mul_nan_right]

theorem NNVal.pow {x : EF} (hx : NNVal x) (n : ℕ) : NNVal (EF.pow x n) := by
  induction n with
  | zero => exact Or.inr ⟨1, by norm_num, rfl⟩
  | succ k ih => exact ih.mul hx

theorem nansumList_cons (x : EF) (l : List EF) :
    nansumList (x :: l) = EF.add (EF.skipNan x) (nansumList l) := rfl

theorem nansumList_eq_fin {l : List EF} (h : ∀ x ∈ l, FinOrNan x) :
    nansumList l = EF.fin ((l.map EF.toQ).sum) := by
  induction l with
  | nil => rfl
  | cons x t ih =>
    have hx := h x (by simp)
    have ih' := ih fun y hy => h y (by simp [hy])
    rw [nansumList_cons, ih']
    rcases hx with rfl | ⟨q, rfl⟩ <;>
      simp [EF.skipNan, EF.isNan, EF.add, EF.toQ]

theorem nansumList_nonneg {l : List EF} (h : ∀ x ∈ l, NNVal x) :
    0 ≤ (l.map EF.toQ).sum ∧ nansumList l = EF.fin ((l.map EF.toQ).sum) := by
  refine ⟨List.sum_nonneg ?_, nansumList_eq_fin fun x hx => (h x hx).finOrNan⟩
  intro a ha
  rcases List.mem_map.1 ha with ⟨x, hx, rfl⟩
  exact (h x hx).toQ_nonneg

theorem toQ_le_sum_map {l : List EF} (h : ∀ x ∈ l, NNVal x) {y : EF} (hy : y ∈ l) :
    EF.toQ y ≤ (l.map EF.toQ).sum := by
  refine List.single_le_sum ?_ _ (List.mem_map_of_mem _ hy)
  intro a ha
  rcases List.mem_map.1 ha with ⟨x, hx, rfl⟩
  exact (h x hx).toQ_nonneg

theorem nansumList_ofFn_eq_fin {n : ℕ} {v : Fin n → EF} (h : ∀ i, FinOrNan (v i)) :
    nansumList (List.ofFn v) = EF.fin (∑ i, EF.toQ (v i)) := by
  rw [nansumList_eq_fin fun x hx => ?_, List.map_ofFn, List.sum_ofFn]
  · rfl
  · rcases (List.mem_ofFn _ _).1 hx with ⟨i, rfl⟩
    exact h i

theorem nansumList_eq_foldr_map (l : List EF) :
    nansumList l = (l.map EF.skipNan).foldr EF.add (EF.fin 0) :=
  (List.foldr_map _ _ _ _).symm

theorem nansumList_ofFn_congr_skipNan {n : ℕ} {u v : Fin n → EF}
    (h : ∀ i, EF.skipNan (u i) = EF.skipNan (v i)) :
    nansumList (List.ofFn u) = nansumList (List.ofFn v) := by
  rw [nansumList_eq_foldr_map, nansumList_eq_foldr_map, List.map_ofFn, List.map_ofFn]
  congr 1
  exact congrArg List.ofFn (funext fun i => h i)

theorem mul_fin_zero_right (y : EF) :
    EF.mul y (EF.fin 0) = EF.fin 0 ∨ EF.mul y (EF.fin 0) = EF.nan := by
  cases y <;> norm_num [EF.mul]

theorem zeroOrNan_mul {x : EF} (hx : x = EF.fin 0 ∨ x = EF.nan) (y : EF) :
    EF.mul x y = EF.fin 0 ∨ EF.mul x y = EF.nan := by
  rcases hx with rfl | rfl <;> cases y <;> norm_num [EF.mul]

theorem invertedPotentials_of_fin {n : ℕ} {p : Fin n → EF} {j : Fin n} {P : ℚ}
    (hp : p j = EF.fin P) :
    invertedPotentials p j = if P = 0 then EF.fin 0 else EF.fin (1 / P) := by
  by_cases hP : P = 0 <;>
    simp [invertedPotentials, hp, EF.reciprocal, hP, EF.isInf]

/-! Claim theorems. -/

/-- C7: `uniform_decay` returns 1 for every finite distance `d ≤ scale` and 0
for every finite distance `d > scale`; at the boundary `d = scale` it follows
the closed-above convention and returns 1. -/
theorem uniform_decay_closed_above_boundary :
    (∀ d scale : ℚ,
      uniform_decay (EF.fin d) scale = if d ≤ scale then EF.fin 1 else EF.fin 0) ∧
    (∀ scale : ℚ, uniform_decay (EF.fin scale) scale = EF.fin 1) := by
  constructor
  · intro d scale
    by_cases h : d ≤ scale <;> simp [uniform_decay, EF.le, h]
  · intro scale
    simp [uniform_decay, EF.le]

/-- C1: the Two-Step FCA engine with radius 6.0 on the sample distance matrix
`[[5,5],[10,0],[15,15]]` with all-ones weights computes the stage-1 demand
potentials `[1.0, 2.0]` and returns the accessibility scores
`[1.5, 0.5, 0.0]`. -/
theorem twoStepFCA_sample_matrix_scores :
    ((TwoStepFCA 6).calculate_demand_potentials sampleDistanceMatrix
        (fun _ => EF.fin 1) 0 = EF.fin 1 ∧
      (TwoStepFCA 6).calculate_demand_potentials sampleDistanceMatrix
        (fun _ => EF.fin 1) 1 = EF.fin 2) ∧
    (TwoStepFCA 6).calculate_accessibility_scores sampleDistanceMatrix none none
      = [EF.fin (3 / 2), EF.fin (1 / 2), EF.fin 0] := by
  refine ⟨⟨?_, ?_⟩, ?_⟩ <;>
    norm_num [GravityModel.calculate_accessibility_scores, GravityModel.accessRatioMatrix,
      GravityModel.calculate_demand_potentials, GravityModel.demandMatrix, invertedPotentials,
      calculate_interaction_probabilities, huffWeights, nansumList, TwoStepFCA, uniform_decay,
      EF.le, EF.mul, EF.add, EF.skipNan, EF.reciprocal, EF.pow, EF.isNan, EF.isInf, EF.div,
      EF.powNegOne, List.ofFn_succ, sampleDistanceMatrix, Matrix.cons_val_zero,
      Matrix.cons_val_one, Matrix.head_cons, Matrix.cons_val_succ]

/-- C3 (divergence evidence): `uniform_decay` does not preserve a NaN
distance; the IEEE comparison `NaN <= scale` is false, so the transform maps
NaN to 0.0 (the repository's own test marks this with
`FIXME: Leave np.nan unchanged`). -/
theorem uniform_decay_maps_nan_to_zero :
    uniform_decay EF.nan 2 = EF.fin 0 ∧ uniform_decay EF.nan 2 ≠ EF.nan := by
  constructor
  · rfl
  · intro h
    simp [uniform_decay, EF.le] at h

/-- Supporting fact for C3: `parabolic_decay` does preserve NaN and maps a
distance of positive infinity to 0, for every scale. -/
theorem parabolic_decay_nan_and_inf (scale : ℚ) :
    parabolic_decay EF.nan scale = EF.nan ∧ parabolic_decay EF.pinf scale = EF.fin 0 := by
  constructor
  · rfl
  · have h2 : ¬ (scale ^ 2 < 0) := not_lt.2 (sq_nonneg scale)
    simp [parabolic_decay, EF.pow, EF.mul, EF.sub, EF.add, EF.neg, EF.div, EF.maximum, h2]

/-- Supporting fact for C3: `gaussian_decay` preserves NaN and maps positive
infinity to 0, for every sigma and every finite kernel of `np.exp`. -/
theorem gaussian_decay_nan_and_inf (expF : ℚ → ℚ) (sigma : ℚ) :
    gaussian_decay expF EF.nan sigma = EF.nan ∧
    gaussian_decay expF EF.pinf sigma = EF.fin 0 := by
  constructor
  · rfl
  · have h2 : ¬ (2 * sigma ^ 2 < 0) := not_lt.2 (by positivity)
    simp [gaussian_decay, EF.pow, EF.mul, EF.div, EF.neg, EF.expE, h2]

/-- Supporting fact for C3: `raised_cosine_decay` preserves NaN for every
scale, and maps positive infinity to 0 for every nonzero scale, given that
the float cosine kernel takes the value -1 at the float constant `math.pi`
(as the IEEE evaluation `np.cos(np.pi) = -1.0` does). -/
theorem raised_cosine_decay_nan_and_inf (cosF : ℚ → ℚ) (piq scale : ℚ)
    (hscale : scale ≠ 0) (hcos : cosF piq = -1) :
    raised_cosine_decay cosF piq EF.nan scale = EF.nan ∧
    raised_cosine_decay cosF piq EF.pinf scale = EF.fin 0 := by
  constructor
  · rfl
  · simp [raised_cosine_decay, EF.clip, EF.minimum, EF.maximum, EF.div, EF.mul, EF.add,
      EF.cosE, hscale, div_self, hcos]

set_option maxHeartbeats 3200000 in
/-- C2 (counterexample): on the sample matrix, the Huff interaction
probability of demand row 1 and supply column 0 is the exact positive value
`1/(10^9 + 1)` (the zero distance in that row contributes the finite sentinel
weight `10^8`, not true infinity), so the probability matrix does not equal
`[[0.5,0.5],[0.0,1.0],[0.5,0.5]]`, and the Three-Step FCA scores are not
exactly `[4/3, 2/3, 0.0]`. -/
theorem threeStepFCA_sample_interaction_prob_not_zero :
    calculate_interaction_probabilities sampleDistanceMatrix 1 0
        = EF.fin (1 / 1000000001) ∧
    calculate_interaction_probabilities sampleDistanceMatrix 1 0 ≠ EF.fin 0 ∧
    (ThreeStepFCA fun d => uniform_decay d 6).calculate_accessibility_scores
        sampleDistanceMatrix none none
      ≠ [EF.fin (4 / 3), EF.fin (2 / 3), EF.fin 0] := by
  refine ⟨?_, ?_, ?_⟩ <;>
    norm_num [GravityModel.calculate_accessibility_scores, GravityModel.accessRatioMatrix,
      GravityModel.calculate_demand_potentials, GravityModel.demandMatrix, invertedPotentials,
      calculate_interaction_probabilities, huffWeights, nansumList, ThreeStepFCA, uniform_decay,
      EF.le, EF.mul, EF.add, EF.skipNan, EF.reciprocal, EF.pow, EF.isNan, EF.isInf, EF.div,
      EF.powNegOne, List.ofFn_succ, sampleDistanceMatrix, Matrix.cons_val_zero,
      Matrix.cons_val_one, Matrix.head_cons, Matrix.cons_val_succ]

set_option maxHeartbeats 6400000 in
/-- C2 (amended): exact values of the Three-Step FCA run (Uniform, scale 6.0)
on the sample matrix.  The Huff probability matrix is
`[[1/2, 1/2], [1/(10^9+1), 10^9/(10^9+1)], [1/2, 1/2]]`, the demand
potentials are `[1/2, (3*10^9+1)/(2*(10^9+1))]`, and the scores are
`[(4*10^9+2)/(3*10^9+1), 2*10^9/(3*10^9+1), 0]`; each differs from the value
the spec displays (`0.0`, `1.0`, `1.5`, `4/3`, `2/3`) by less than `10^-6`,
which is why the repository's approximate-equality tests pass. -/
theorem threeStepFCA_sample_exact_values :
    (calculate_interaction_probabilities sampleDistanceMatrix 0 0 = EF.fin (1 / 2) ∧
      calculate_interaction_probabilities sampleDistanceMatrix 0 1 = EF.fin (1 / 2) ∧
      calculate_interaction_probabilities sampleDistanceMatrix 1 0
        = EF.fin (1 / 1000000001) ∧
      calculate_interaction_probabilities sampleDistanceMatrix 1 1
        = EF.fin (1000000000 / 1000000001) ∧
      calculate_interaction_probabilities sampleDistanceMatrix 2 0 = EF.fin (1 / 2) ∧
      calculate_interaction_probabilities sampleDistanceMatrix 2 1 = EF.fin (1 / 2)) ∧
    ((ThreeStepFCA fun d => uniform_decay d 6).calculate_demand_potentials
        sampleDistanceMatrix (fun _ => EF.fin 1) 0 = EF.fin (1 / 2) ∧
      (ThreeStepFCA fun d => uniform_decay d 6).calculate_demand_potentials
        sampleDistanceMatrix (fun _ => EF.fin 1) 1
        = EF.fin (3000000001 / 2000000002)) ∧
    (ThreeStepFCA fun d => uniform_decay d 6).calculate_accessibility_scores
        sampleDistanceMatrix none none
      = [EF.fin (4000000002 / 3000000001), EF.fin (2000000000 / 3000000001), EF.fin 0] ∧
    (|(1 : ℚ) / 1000000001 - 0| < 1 / 1000000 ∧
      |(1000000000 : ℚ) / 1000000001 - 1| < 1 / 1000000 ∧
      |(3000000001 : ℚ) / 2000000002 - 3 / 2| < 1 / 1000000 ∧
      |(4000000002 : ℚ) / 3000000001 - 4 / 3| < 1 / 1000000 ∧
      |(2000000000 : ℚ) / 3000000001 - 2 / 3| < 1 / 1000000) := by
  refine ⟨⟨?_, ?_, ?_, ?_, ?_, ?_⟩, ⟨?_, ?_⟩, ?_, ?_⟩ <;>
    norm_num [GravityModel.calculate_accessibility_scores, GravityModel.accessRatioMatrix,
      GravityModel.calculate_demand_potentials, GravityModel.demandMatrix, invertedPotentials,
      calculate_interaction_probabilities, huffWeights, nansumList, ThreeStepFCA, uniform_decay,
      EF.le, EF.mul, EF.add, EF.skipNan, EF.reciprocal, EF.pow, EF.isNan, EF.isInf, EF.div,
      EF.powNegOne, List.ofFn_succ, sampleDistanceMatrix, Matrix.cons_val_zero,
      Matrix.cons_val_one, Matrix.head_cons, Matrix.cons_val_succ, abs_sub_lt_iff, abs_lt]

/-- C4: if a supply column's stage-1 demand potential is exactly 0, the
inverted potential is exactly 0 (`np.reciprocal` produces infinity, which the
engine replaces by 0.0), every access-ratio entry of that column is 0.0 or
NaN, and the row sums are unchanged if that column's entries are replaced by
0 — the column contributes nothing to any demand location's score. -/
theorem zero_demand_potential_inverse_zero_and_no_contribution
    {m n : ℕ} (gm : GravityModel) (M : Fin m → Fin n → EF)
    (demand : Fin m → EF) (supply : Fin n → EF) (j : Fin n)
    (hpot : gm.calculate_demand_potentials M demand j = EF.fin 0) :
    invertedPotentials (gm.calculate_demand_potentials M demand) j = EF.fin 0 ∧
    (∀ i, gm.accessRatioMatrix M demand supply i j = EF.fin 0 ∨
      gm.accessRatioMatrix M demand supply i j = EF.nan) ∧
    ∀ i, nansumList (List.ofFn fun k => gm.accessRatioMatrix M demand supply i k)
        = nansumList (List.ofFn fun k =>
            if k = j then EF.fin 0 else gm.accessRatioMatrix M demand supply i k) := by
  have hinv : invertedPotentials (gm.calculate_demand_potentials M demand) j = EF.fin 0 := by
    rw [invertedPotentials_of_fin hpot]
    simp
  have hentry : ∀ i, gm.accessRatioMatrix M demand supply i j = EF.fin 0 ∨
      gm.accessRatioMatrix M demand supply i j = EF.nan := by
    intro i
    have h1 := mul_fin_zero_right (supply j)
    cases hh : gm.huff_normalization <;>
      simp only [GravityModel.accessRatioMatrix, hh, Bool.false_eq_true, if_true, if_false,
        ite_true, ite_false, hinv]
    · exact zeroOrNan_mul h1 _
    · exact zeroOrNan_mul (zeroOrNan_mul h1 _) _
  refine ⟨hinv, hentry, ?_⟩
  intro i
  apply nansumList_ofFn_congr_skipNan
  intro k
  by_cases hk : k = j
  · subst hk
    rcases hentry i with h | h <;> simp [h, EF.skipNan, EF.isNan]
  · simp [hk]

/-- Witness matrix for C4: one supply location out of reach (distances 10 and
20 with radius 6), so its demand potential is exactly 0. -/
def emptyCatchmentMatrix : Fin 2 → Fin 1 → EF := ![![.fin 10], ![.fin 20]]

/-- Witness for C4: on `emptyCatchmentMatrix` with radius 6 the single supply
column's demand potential is 0 and its inverted potential is 0. -/
theorem zero_demand_potential_witness :
    (TwoStepFCA 6).calculate_demand_potentials emptyCatchmentMatrix
        (fun _ => EF.fin 1) 0 = EF.fin 0 ∧
    invertedPotentials
        ((TwoStepFCA 6).calculate_demand_potentials emptyCatchmentMatrix
          (fun _ => EF.fin 1)) 0 = EF.fin 0 := by
  have h : (TwoStepFCA 6).calculate_demand_potentials emptyCatchmentMatrix
      (fun _ => EF.fin 1) 0 = EF.fin 0 := by
    norm_num [GravityModel.calculate_demand_potentials, GravityModel.demandMatrix,
      nansumList, TwoStepFCA, uniform_decay, EF.le, EF.mul, EF.add, EF.skipNan, EF.isNan,
      List.ofFn_succ, emptyCatchmentMatrix, Matrix.cons_val_zero, Matrix.cons_val_one,
      Matrix.head_cons, Matrix.cons_val_succ]
  exact ⟨h, (zero_demand_potential_inverse_zero_and_no_contribution (TwoStepFCA 6)
    emptyCatchmentMatrix (fun _ => EF.fin 1) (fun _ => EF.fin 1) 0 h).1⟩

/-- Spec-side closed form of one Huff inverse-distance weight on a
nonnegative finite distance: `1/q`, with a zero distance replaced by the
finite sentinel `10^8`. -/
def huffWeightQ (q : ℚ) : ℚ := if q = 0 then 10 ^ 8 else 1 / q

/-- C8: on a matrix of nonnegative finite distances, each Huff weight is the
inverse distance with the zero-distance sentinel `10^8`, the interaction
probability of pair `(i, j)` is that weight divided by the row total of
weights, each entry is finite (no NaN or infinity), and every demand row of
the probability matrix sums to exactly 1. -/
theorem interaction_probabilities_row_normalized
    {m n : ℕ} (hn : 0 < n) (d : Fin m → Fin n → ℚ) (hd : ∀ i j, 0 ≤ d i j) :
    (∀ i j, huffWeights (fun i j => EF.fin (d i j)) i j = EF.fin (huffWeightQ (d i j))) ∧
    (∀ i j, calculate_interaction_probabilities (fun i j => EF.fin (d i j)) i j
        = EF.fin (huffWeightQ (d i j) / ∑ k, huffWeightQ (d i k))) ∧
    (∀ i, nansumList (List.ofFn fun j =>
        calculate_interaction_probabilities (fun i j => EF.fin (d i j)) i j) = EF.fin 1) := by
  have hw : ∀ i j, huffWeights (fun i j => EF.fin (d i j)) i j
      = EF.fin (huffWeightQ (d i j)) := by
    intro i j
    by_cases h0 : d i j = 0 <;>
      norm_num [huffWeights, EF.powNegOne, EF.div, h0, EF.isInf, huffWeightQ]
  have hpos : ∀ i j, 0 < huffWeightQ (d i j) := by
    intro i j
    by_cases h0 : d i j = 0
    · norm_num [huffWeightQ, h0]
    · simp only [huffWeightQ]
      rw [if_neg h0]
      exact one_div_pos.2 (lt_of_le_of_ne (hd i j) (Ne.symm h0))
  have : Nonempty (Fin n) := ⟨⟨0, hn⟩⟩
  have hS : ∀ i, 0 < ∑ k, huffWeightQ (d i k) := fun i =>
    Finset.sum_pos (fun k _ => hpos i k) Finset.univ_nonempty
  have hrow : ∀ i, nansumList (List.ofFn fun k =>
      huffWeights (fun i j => EF.fin (d i j)) i k) = EF.fin (∑ k, huffWeightQ (d i k)) := by
    intro i
    rw [nansumList_ofFn_eq_fin fun k => Or.inr ⟨_, hw i k⟩]
    congr 1
    refine Finset.sum_congr rfl fun k _ => ?_
    rw [hw i k]
    rfl
  have hprob : ∀ i j, calculate_interaction_probabilities (fun i j => EF.fin (d i j)) i j
      = EF.fin (huffWeightQ (d i j) / ∑ k, huffWeightQ (d i k)) := by
    intro i j
    rw [calculate_interaction_probabilities, hw i j, hrow i]
    simp [EF.div, (hS i).ne.symm]
  refine ⟨hw, hprob, ?_⟩
  intro i
  rw [nansumList_ofFn_eq_fin fun k => Or.inr ⟨_, hprob i k⟩]
  have hsum : (∑ j, EF.toQ (calculate_interaction_probabilities
      (fun i j => EF.fin (d i j)) i j)) = ∑ j, huffWeightQ (d i j) / ∑ k, huffWeightQ (d i k) := by
    refine Finset.sum_congr rfl fun j _ => ?_
    rw [hprob i j]
    rfl
  rw [hsum, ← Finset.sum_div, div_self (hS i).ne.symm]

/-- The sample distance matrix as exact rationals, for the C8 witness. -/
def sampleDistanceQ : Fin 3 → Fin 2 → ℚ := ![![5, 5], ![10, 0], ![15, 15]]

/-- Witness for C8, at the sample matrix: the probability at demand row 1 and
supply column 0 is its weight over the row total, and row 1 of the
probability matrix sums to exactly 1. -/
theorem interaction_probabilities_witness :
    calculate_interaction_probabilities (fun i j => EF.fin (sampleDistanceQ i j)) 1 0
      = EF.fin (huffWeightQ (sampleDistanceQ 1 0) / ∑ k, huffWeightQ (sampleDistanceQ 1 k)) ∧
    nansumList (List.ofFn fun j =>
      calculate_interaction_probabilities (fun i j => EF.fin (sampleDistanceQ i j)) 1 j)
      = EF.fin 1 := by
  have hd : ∀ i j, 0 ≤ sampleDistanceQ i j := by
    intro i j
    fin_cases i <;> fin_cases j <;>
      norm_num [sampleDistanceQ, Matrix.cons_val_zero, Matrix.cons_val_one, Matrix.head_cons]
  have h := interaction_probabilities_row_normalized (by norm_num) sampleDistanceQ hd
  exact ⟨h.2.1 1 0, h.2.2 1⟩

theorem huffWeightQ_pos (q : ℚ) (hq : 0 ≤ q) : 0 < huffWeightQ q := by
  by_cases h0 : q = 0
  · norm_num [huffWeightQ, h0]
  · simp only [huffWeightQ]
    rw [if_neg h0]
    exact one_div_pos.2 (lt_of_le_of_ne hq (Ne.symm h0))

theorem huffWeights_cases {m n : ℕ} (M : Fin m → Fin n → EF) (i : Fin m) (j : Fin n) :
    (M i j = EF.nan → huffWeights M i j = EF.nan) ∧
    (M i j = EF.pinf → huffWeights M i j = EF.fin 0) ∧
    (∀ q : ℚ, M i j = EF.fin q → huffWeights M i j = EF.fin (huffWeightQ q)) := by
  refine ⟨fun h => ?_, fun h => ?_, fun q h => ?_⟩
  · simp [huffWeights, EF.powNegOne, EF.div, h, EF.isInf]
  · simp [huffWeights, EF.powNegOne, EF.div, h, EF.isInf]
  · by_cases h0 : q = 0 <;>
      norm_num [huffWeights, EF.powNegOne, EF.div, h, EF.isInf, huffWeightQ, h0]

theorem interaction_probabilities_NNVal {m n : ℕ} (M : Fin m → Fin n → EF)
    (hM : ∀ i j, M i j = EF.nan ∨ M i j = EF.pinf ∨ ∃ q : ℚ, 0 ≤ q ∧ M i j = EF.fin q)
    (i : Fin m) (j : Fin n) : NNVal (calculate_interaction_probabilities M i j) := by
  have hw : ∀ k, NNVal (huffWeights M i k) := by
    intro k
    rcases hM i k with h | h | ⟨q, hq, h⟩
    · exact Or.inl ((huffWeights_cases M i k).1 h)
    · exact Or.inr ⟨0, le_refl 0, (huffWeights_cases M i k).2.1 h⟩
    · exact Or.inr ⟨huffWeightQ q, le_of_lt (huffWeightQ_pos q hq),
        (huffWeights_cases M i k).2.2 q h⟩
  have hSw : 0 ≤ ∑ k, EF.toQ (huffWeights M i k) :=
    Finset.sum_nonneg fun k _ => (hw k).toQ_nonneg
  have hrow : nansumList (List.ofFn fun k => huffWeights M i k)
      = EF.fin (∑ k, EF.toQ (huffWeights M i k)) :=
    nansumList_ofFn_eq_fin fun k => (hw k).finOrNan
  rcases hw j with hnan | ⟨a, ha, hfin⟩
  · rw [calculate_interaction_probabilities, hnan, hrow]
    exact Or.inl (by simp [EF.div])
  · have haSw : a ≤ ∑ k, EF.toQ (huffWeights M i k) := by
      have h1 := Finset.single_le_sum (f := fun k => EF.toQ (huffWeights M i k))
        (fun k _ => (hw k).toQ_nonneg) (Finset.mem_univ j)
      simpa [hfin, EF.toQ] using h1
    by_cases hS0 : (∑ k, EF.toQ (huffWeights M i k)) = 0
    · have ha0 : a = 0 := le_antisymm (hS0 ▸ haSw) ha
      rw [calculate_interaction_probabilities, hfin, hrow, hS0, ha0]
      exact Or.inl (by norm_num [EF.div])
    · rw [calculate_interaction_probabilities, hfin, hrow]
      exact Or.inr ⟨a / _, div_nonneg ha hSw, by simp [EF.div, hS0]⟩

theorem calculate_accessibility_scores_some {m n : ℕ} (gm : GravityModel)
    (M : Fin m → Fin n → EF) (D : Fin m → EF) (S : Fin n → EF) :
    gm.calculate_accessibility_scores M (some D) (some S)
      = List.ofFn fun i =>
          nansumList (List.ofFn fun j => gm.accessRatioMatrix M D S i j) := rfl

theorem calculate_accessibility_scores_none {m n : ℕ} (gm : GravityModel)
    (M : Fin m → Fin n → EF) :
    gm.calculate_accessibility_scores M none none
      = gm.calculate_accessibility_scores M (some fun _ => EF.fin 1)
          (some fun _ => EF.fin 1) := rfl

/-- C9: for every distance matrix whose entries are NaN, +inf or nonnegative
finite, every decay function with NaN-or-nonnegative-finite outputs, both
Huff settings, any integral suboptimality exponent, and nonnegative demand
and supply weights, `calculate_accessibility_scores` returns a vector whose
length is the number of demand rows and whose every entry is a nonnegative
finite value. -/
theorem accessibility_scores_length_and_nonneg
    {m n : ℕ} (gm : GravityModel)
    (hdecay : ∀ x : EF, NNVal (gm.decay_function x))
    (M : Fin m → Fin n → EF)
    (hM : ∀ i j, M i j = EF.nan ∨ M i j = EF.pinf ∨ ∃ q : ℚ, 0 ≤ q ∧ M i j = EF.fin q)
    (d : Fin m → ℚ) (s : Fin n → ℚ) (hd : ∀ i, 0 ≤ d i) (hs : ∀ j, 0 ≤ s j) :
    (gm.calculate_accessibility_scores M (some fun i => EF.fin (d i))
        (some fun j => EF.fin (s j))).length = m ∧
    ∀ x ∈ gm.calculate_accessibility_scores M (some fun i => EF.fin (d i))
        (some fun j => EF.fin (s j)), ∃ q : ℚ, 0 ≤ q ∧ x = EF.fin q := by
  have hprob := fun i j => interaction_probabilities_NNVal M hM i j
  have hdm : ∀ i j, NNVal (gm.demandMatrix M (fun i => EF.fin (d i)) i j) := by
    intro i j
    have base : NNVal (EF.mul (EF.fin (d i)) (gm.decay_function (M i j))) :=
      NNVal.mul (Or.inr ⟨d i, hd i, rfl⟩) (hdecay _)
    cases hh : gm.huff_normalization <;>
      simp only [GravityModel.demandMatrix, hh, Bool.false_eq_true, ite_true, ite_false]
    · exact base
    · exact base.mul (hprob i j)
  have hpot : ∀ j, gm.calculate_demand_potentials M (fun i => EF.fin (d i)) j
      = EF.fin (∑ i, EF.toQ (gm.demandMatrix M (fun i => EF.fin (d i)) i j)) :=
    fun j => nansumList_ofFn_eq_fin fun i => (hdm i j).finOrNan
  have hpotQ : ∀ j, 0 ≤ ∑ i, EF.toQ (gm.demandMatrix M (fun i => EF.fin (d i)) i j) :=
    fun j => Finset.sum_nonneg fun i _ => (hdm i j).toQ_nonneg
  have hinvp : ∀ j, ∃ I : ℚ, 0 ≤ I ∧
      invertedPotentials (gm.calculate_demand_potentials M (fun i => EF.fin (d i))) j
        = EF.fin I := by
    intro j
    rw [invertedPotentials_of_fin (hpot j)]
    by_cases h0 : (∑ i, EF.toQ (gm.demandMatrix M (fun i => EF.fin (d i)) i j)) = 0
    · exact ⟨0, le_refl 0, by rw [if_pos h0]⟩
    · exact ⟨_, one_div_nonneg.2 (hpotQ j), by rw [if_neg h0]⟩
  have harm : ∀ i j, NNVal (gm.accessRatioMatrix M (fun i => EF.fin (d i))
      (fun j => EF.fin (s j)) i j) := by
    intro i j
    obtain ⟨I, hI, hInv⟩ := hinvp j
    have base : NNVal (EF.mul
        (EF.mul (EF.fin (s j))
          (invertedPotentials (gm.calculate_demand_potentials M (fun i => EF.fin (d i))) j))
        (EF.pow (gm.decay_function (M i j)) gm.suboptimality_exponent)) := by
      rw [hInv]
      exact (NNVal.mul (Or.inr ⟨s j, hs j, rfl⟩) (Or.inr ⟨I, hI, rfl⟩)).mul
        ((hdecay _).pow _)
    cases hh : gm.huff_normalization <;>
      simp only [GravityModel.accessRatioMatrix, hh, Bool.false_eq_true, ite_true, ite_false]
    · exact base
    · exact base.mul (hprob i j)
  constructor
  · rw [calculate_accessibility_scores_some]
    exact List.length_ofFn _
  · intro x hx
    rw [calculate_accessibility_scores_some] at hx
    rcases (List.mem_ofFn _ _).1 hx with ⟨i, rfl⟩
    exact ⟨_, Finset.sum_nonneg fun j _ => (harm i j).toQ_nonneg,
      nansumList_ofFn_eq_fin fun j => (harm i j).finOrNan⟩

/-- C5: on a distance matrix whose entries are NaN or nonnegative finite (for
an engine whose decay function sends NaN to NaN or to 0, sends nonnegative
finite distances to finite values, with positive integral suboptimality
exponent, both Huff settings, and finite weight vectors), the stage-1 demand
potentials and the returned scores are the plain sums restricted to the
non-NaN entries of each column and row, and no NaN reaches the returned
score vector.  (A zero suboptimality exponent would break the stage-2 part:
`np.power(NaN, 0) = 1.0`; every engine the source configures uses the
default exponent `1.0`.) -/
theorem nan_distances_excluded_from_sums
    {m n : ℕ} (gm : GravityModel)
    (hdnan : gm.decay_function EF.nan = EF.nan ∨ gm.decay_function EF.nan = EF.fin 0)
    (hdfin : ∀ q : ℚ, 0 ≤ q → ∃ r : ℚ, gm.decay_function (EF.fin q) = EF.fin r)
    (hexp : 1 ≤ gm.suboptimality_exponent)
    (M : Fin m → Fin n → EF) (hM : ∀ i j, M i j = EF.nan ∨ ∃ q : ℚ, 0 ≤ q ∧ M i j = EF.fin q)
    (d : Fin m → ℚ) (s : Fin n → ℚ) :
    (∀ j, gm.calculate_demand_potentials M (fun i => EF.fin (d i)) j
        = EF.fin (∑ i ∈ Finset.univ.filter (fun i => M i j ≠ EF.nan),
            EF.toQ (gm.demandMatrix M (fun i => EF.fin (d i)) i j))) ∧
    gm.calculate_accessibility_scores M (some fun i => EF.fin (d i))
        (some fun j => EF.fin (s j))
      = (List.ofFn fun i => EF.fin (∑ j ∈ Finset.univ.filter (fun j => M i j ≠ EF.nan),
          EF.toQ (gm.accessRatioMatrix M (fun i => EF.fin (d i))
            (fun j => EF.fin (s j)) i j))) ∧
    ∀ x ∈ gm.calculate_accessibility_scores M (some fun i => EF.fin (d i))
        (some fun j => EF.fin (s j)), x.isNan = false := by
  have hprobCases : ∀ i j,
      (M i j = EF.nan → calculate_interaction_probabilities M i j = EF.nan) ∧
      (∀ q : ℚ, 0 ≤ q → M i j = EF.fin q →
        ∃ p : ℚ, calculate_interaction_probabilities M i j = EF.fin p) := by
    intro i j
    have hw : ∀ k, NNVal (huffWeights M i k) := by
      intro k
      rcases hM i k with h | ⟨q, hq, h⟩
      · exact Or.inl ((huffWeights_cases M i k).1 h)
      · exact Or.inr ⟨huffWeightQ q, le_of_lt (huffWeightQ_pos q hq),
          (huffWeights_cases M i k).2.2 q h⟩
    have hrow : nansumList (List.ofFn fun k => huffWeights M i k)
        = EF.fin (∑ k, EF.toQ (huffWeights M i k)) :=
      nansumList_ofFn_eq_fin fun k => (hw k).finOrNan
    constructor
    · intro h
      rw [calculate_interaction_probabilities, (huffWeights_cases M i j).1 h, hrow]
      simp [EF.div]
    · intro q hq h
      have hwj : huffWeights M i j = EF.fin (huffWeightQ q) :=
        (huffWeights_cases M i j).2.2 q h
      have hSpos : 0 < ∑ k, EF.toQ (huffWeights M i k) := by
        have h1 := Finset.single_le_sum (f := fun k => EF.toQ (huffWeights M i k))
          (fun k _ => (hw k).toQ_nonneg) (Finset.mem_univ j)
        have h2 : EF.toQ (huffWeights M i j) = huffWeightQ q := by rw [hwj]; rfl
        have h3 := huffWeightQ_pos q hq
        calc (0 : ℚ) < huffWeightQ q := h3
          _ ≤ _ := h2 ▸ h1
      refine ⟨huffWeightQ q / ∑ k, EF.toQ (huffWeights M i k), ?_⟩
      rw [calculate_interaction_probabilities, hwj, hrow]
      simp [EF.div, hSpos.ne.symm]
  have hdmCases : ∀ i j,
      (M i j = EF.nan → gm.demandMatrix M (fun i => EF.fin (d i)) i j = EF.nan ∨
        gm.demandMatrix M (fun i => EF.fin (d i)) i j = EF.fin 0) ∧
      (M i j ≠ EF.nan →
        ∃ r : ℚ, gm.demandMatrix M (fun i => EF.fin (d i)) i j = EF.fin r) := by
    intro i j
    constructor
    · intro h
      have hbase : EF.mul (EF.fin (d i)) (gm.decay_function (M i j)) = EF.nan ∨
          EF.mul (EF.fin (d i)) (gm.decay_function (M i j)) = EF.fin 0 := by
        rw [h]
        rcases hdnan with hn | hn <;> rw [hn]
        · exact Or.inl (EF.mul_nan_right _)
        · exact Or.inr (by norm_num [EF.mul])
      cases hh : gm.huff_normalization <;>
        simp only [GravityModel.demandMatrix, hh, Bool.false_eq_true, ite_true, ite_false]
      · exact hbase
      · have hp := (hprobCases i j).1 h
        rw [hp]
        exact Or.inl (EF.mul_nan_right _)
    · intro h
      rcases hM i j with hn | ⟨q, hq, hfin⟩
      · exact absurd hn h
      obtain ⟨r, hr⟩ := hdfin q hq
      have hbase : EF.mul (EF.fin (d i)) (gm.decay_function (M i j)) = EF.fin (d i * r) := by
        rw [hfin, hr]
        exact EF.mul_fin _ _
      cases hh : gm.huff_normalization <;>
        simp only [GravityModel.demandMatrix, hh, Bool.false_eq_true, ite_true, ite_false]
      · exact ⟨d i * r, hbase⟩
      · obtain ⟨p, hp⟩ := (hprobCases i j).2 q hq hfin
        exact ⟨d i * r * p, by rw [hbase, hp]; exact EF.mul_fin _ _⟩
  have hdmFinOrNan : ∀ i j, FinOrNan (gm.demandMatrix M (fun i => EF.fin (d i)) i j) := by
    intro i j
    rcases hM i j with h | ⟨q, hq, hfin⟩
    · rcases (hdmCases i j).1 h with h1 | h1
      · exact Or.inl h1
      · exact Or.inr ⟨0, h1⟩
    · obtain ⟨r, hr⟩ := (hdmCases i j).2 (by rw [hfin]; exact fun hc => EF.noConfusion hc)
      exact Or.inr ⟨r, hr⟩
  have hdmNanToQ : ∀ i j, M i j = EF.nan →
      EF.toQ (gm.demandMatrix M (fun i => EF.fin (d i)) i j) = 0 := by
    intro i j h
    rcases (hdmCases i j).1 h with h1 | h1 <;> rw [h1] <;> rfl
  have hpot : ∀ j, gm.calculate_demand_potentials M (fun i => EF.fin (d i)) j
      = EF.fin (∑ i, EF.toQ (gm.demandMatrix M (fun i => EF.fin (d i)) i j)) :=
    fun j => nansumList_ofFn_eq_fin fun i => hdmFinOrNan i j
  have hpotFilter : ∀ j, (∑ i ∈ Finset.univ.filter (fun i => M i j ≠ EF.nan),
      EF.toQ (gm.demandMatrix M (fun i => EF.fin (d i)) i j))
      = ∑ i, EF.toQ (gm.demandMatrix M (fun i => EF.fin (d i)) i j) := by
    intro j
    refine Finset.sum_filter_of_ne fun i _ hne => ?_
    intro hnan
    exact hne (hdmNanToQ i j hnan)
  have hfirst : ∀ j, gm.calculate_demand_potentials M (fun i => EF.fin (d i)) j
      = EF.fin (∑ i ∈ Finset.univ.filter (fun i => M i j ≠ EF.nan),
          EF.toQ (gm.demandMatrix M (fun i => EF.fin (d i)) i j)) := by
    intro j
    rw [hpot j]
    exact congrArg EF.fin (hpotFilter j).symm
  have hinv : ∀ j, ∃ I : ℚ,
      invertedPotentials (gm.calculate_demand_potentials M (fun i => EF.fin (d i))) j
        = EF.fin I := by
    intro j
    rw [invertedPotentials_of_fin (hpot j)]
    exact ⟨_, (apply_ite EF.fin _ 0 _).symm⟩
  have harmCases : ∀ i j,
      (M i j = EF.nan → gm.accessRatioMatrix M (fun i => EF.fin (d i))
          (fun j => EF.fin (s j)) i j = EF.nan ∨
        gm.accessRatioMatrix M (fun i => EF.fin (d i))
          (fun j => EF.fin (s j)) i j = EF.fin 0) ∧
      (M i j ≠ EF.nan → ∃ r : ℚ, gm.accessRatioMatrix M (fun i => EF.fin (d i))
          (fun j => EF.fin (s j)) i j = EF.fin r) := by
    intro i j
    obtain ⟨I, hI⟩ := hinv j
    have hSI : EF.mul (EF.fin (s j))
        (invertedPotentials (gm.calculate_demand_potentials M (fun i => EF.fin (d i))) j)
        = EF.fin (s j * I) := by rw [hI]; exact EF.mul_fin _ _
    constructor
    · intro h
      have hcore : EF.mul (EF.mul (EF.fin (s j))
          (invertedPotentials (gm.calculate_demand_potentials M (fun i => EF.fin (d i))) j))
          (EF.pow (gm.decay_function (M i j)) gm.suboptimality_exponent) = EF.nan ∨
          EF.mul (EF.mul (EF.fin (s j))
          (invertedPotentials (gm.calculate_demand_potentials M (fun i => EF.fin (d i))) j))
          (EF.pow (gm.decay_function (M i j)) gm.suboptimality_exponent) = EF.fin 0 := by
        rw [hSI, h]
        rcases hdnan with hn | hn <;> rw [hn]
        · rw [EF.pow_nan hexp]
          exact Or.inl (EF.mul_nan_right _)
        · rw [EF.pow_fin, zero_pow (by omega : gm.suboptimality_exponent ≠ 0)]
          exact Or.inr (by norm_num [EF.mul])
      cases hh : gm.huff_normalization <;>
        simp only [GravityModel.accessRatioMatrix, hh, Bool.false_eq_true, ite_true, ite_false]
      · exact hcore
      · rw [(hprobCases i j).1 h]
        exact Or.inl (EF.mul_nan_right _)
    · intro h
      rcases hM i j with hn | ⟨q, hq, hfin⟩
      · exact absurd hn h
      obtain ⟨r, hr⟩ := hdfin q hq
      have hcore : EF.mul (EF.mul (EF.fin (s j))
          (invertedPotentials (gm.calculate_demand_potentials M (fun i => EF.fin (d i))) j))
          (EF.pow (gm.decay_function (M i j)) gm.suboptimality_exponent)
          = EF.fin (s j * I * r ^ gm.suboptimality_exponent) := by
        rw [hSI, hfin, hr, EF.pow_fin]
        exact EF.mul_fin _ _
      cases hh : gm.huff_normalization <;>
        simp only [GravityModel.accessRatioMatrix, hh, Bool.false_eq_true, ite_true, ite_false]
      · exact ⟨_, hcore⟩
      · obtain ⟨p, hp⟩ := (hprobCases i j).2 q hq hfin
        exact ⟨_, by rw [hcore, hp]; exact EF.mul_fin _ _⟩
  have harmFinOrNan : ∀ i j, FinOrNan (gm.accessRatioMatrix M (fun i => EF.fin (d i))
      (fun j => EF.fin (s j)) i j) := by
    intro i j
    rcases hM i j with h | ⟨q, hq, hfin⟩
    · rcases (harmCases i j).1 h with h1 | h1
      · exact Or.inl h1
      · exact Or.inr ⟨0, h1⟩
    · obtain ⟨r, hr⟩ := (harmCases i j).2 (by rw [hfin]; exact fun hc => EF.noConfusion hc)
      exact Or.inr ⟨r, hr⟩
  have harmNanToQ : ∀ i j, M i j = EF.nan →
      EF.toQ (gm.accessRatioMatrix M (fun i => EF.fin (d i))
        (fun j => EF.fin (s j)) i j) = 0 := by
    intro i j h
    rcases (harmCases i j).1 h with h1 | h1 <;> rw [h1] <;> rfl
  have hsecond : gm.calculate_accessibility_scores M (some fun i => EF.fin (d i))
      (some fun j => EF.fin (s j))
      = (List.ofFn fun i => EF.fin (∑ j ∈ Finset.univ.filter (fun j => M i j ≠ EF.nan),
          EF.toQ (gm.accessRatioMatrix M (fun i => EF.fin (d i))
            (fun j => EF.fin (s j)) i j))) := by
    have harmFilter : ∀ i, (∑ j ∈ Finset.univ.filter (fun j => M i j ≠ EF.nan),
        EF.toQ (gm.accessRatioMatrix M (fun i => EF.fin (d i))
          (fun j => EF.fin (s j)) i j))
        = ∑ j, EF.toQ (gm.accessRatioMatrix M (fun i => EF.fin (d i))
            (fun j => EF.fin (s j)) i j) := by
      intro i
      refine Finset.sum_filter_of_ne fun j _ hne => ?_
      intro hnan
      exact hne (harmNanToQ i j hnan)
    rw [calculate_accessibility_scores_some]
    refine congrArg List.ofFn (funext fun i => ?_)
    rw [nansumList_ofFn_eq_fin fun j => harmFinOrNan i j]
    exact congrArg EF.fin (harmFilter i).symm
  refine ⟨hfirst, hsecond, ?_⟩
  intro x hx
  rw [hsecond] at hx
  rcases (List.mem_ofFn _ _).1 hx with ⟨i, rfl⟩
  rfl

/-- Witness matrix for C5: a 2 x 2 distance matrix containing NaN entries. -/
def nanMatrix : Fin 2 → Fin 2 → EF := ![![.fin 5, .nan], ![.nan, .fin 3]]

theorem twoStepFCA_decay_fin (q : ℚ) (hq : 0 ≤ q) :
    ∃ r : ℚ, (TwoStepFCA 6).decay_function (EF.fin q) = EF.fin r := by
  cases h : EF.le (EF.fin q) (EF.fin 6)
  · exact ⟨0, by simp [TwoStepFCA, uniform_decay, h]⟩
  · exact ⟨1, by simp [TwoStepFCA, uniform_decay, h]⟩

theorem nanMatrix_entries : ∀ i j, nanMatrix i j = EF.nan ∨
    ∃ q : ℚ, 0 ≤ q ∧ nanMatrix i j = EF.fin q := by
  intro i j
  fin_cases i <;> fin_cases j
  · exact Or.inr ⟨5, by norm_num, rfl⟩
  · exact Or.inl rfl
  · exact Or.inl rfl
  · exact Or.inr ⟨3, by norm_num, rfl⟩

/-- Witness for C5: the Two-Step FCA engine with radius 6 on `nanMatrix`
computes supply column 0's demand potential as the sum over the rows whose
distance entry is not NaN. -/
theorem nan_distances_excluded_witness :
    (TwoStepFCA 6).calculate_demand_potentials nanMatrix (fun _ => EF.fin 1) 0
      = EF.fin (∑ i ∈ Finset.univ.filter (fun i => nanMatrix i 0 ≠ EF.nan),
          EF.toQ ((TwoStepFCA 6).demandMatrix nanMatrix (fun _ => EF.fin 1) i 0)) :=
  (nan_distances_excluded_from_sums (TwoStepFCA 6) (Or.inr rfl) twoStepFCA_decay_fin
    (le_refl 1) nanMatrix nanMatrix_entries (fun _ => 1) (fun _ => 1)).1 0

theorem twoStepFCA_decay_NNVal : ∀ x : EF, NNVal ((TwoStepFCA 6).decay_function x) := by
  intro x
  cases h : EF.le x (EF.fin 6)
  · exact Or.inr ⟨0, le_refl 0, by simp [TwoStepFCA, uniform_decay, h]⟩
  · exact Or.inr ⟨1, by norm_num, by simp [TwoStepFCA, uniform_decay, h]⟩

theorem emptyCatchmentMatrix_entries : ∀ i j, emptyCatchmentMatrix i j = EF.nan ∨
    emptyCatchmentMatrix i j = EF.pinf ∨
    ∃ q : ℚ, 0 ≤ q ∧ emptyCatchmentMatrix i j = EF.fin q := by
  intro i j
  fin_cases i <;> fin_cases j
  · exact Or.inr (Or.inr ⟨10, by norm_num, rfl⟩)
  · exact Or.inr (Or.inr ⟨20, by norm_num, rfl⟩)

/-- Witness for C9: the Two-Step FCA engine with radius 6 on the 2 x 1 matrix
`[[10], [20]]` returns a vector of length 2, and the concrete value 0.0 found
in that vector is a nonnegative finite value by the theorem. -/
theorem accessibility_scores_witness :
    ((TwoStepFCA 6).calculate_accessibility_scores emptyCatchmentMatrix
        (some fun _ => EF.fin 1) (some fun _ => EF.fin 1)).length = 2 ∧
    (∃ q : ℚ, 0 ≤ q ∧ EF.fin 0 = EF.fin q) := by
  have h := accessibility_scores_length_and_nonneg (TwoStepFCA 6) twoStepFCA_decay_NNVal
    emptyCatchmentMatrix emptyCatchmentMatrix_entries (fun _ => 1) (fun _ => 1)
    (fun _ => by norm_num) (fun _ => by norm_num)
  refine ⟨h.1, h.2 (EF.fin 0) ?_⟩
  show EF.fin 0 ∈ (TwoStepFCA 6).calculate_accessibility_scores emptyCatchmentMatrix
    (some fun _ => EF.fin 1) (some fun _ => EF.fin 1)
  have hval : (TwoStepFCA 6).calculate_accessibility_scores emptyCatchmentMatrix
      (some fun _ => EF.fin 1) (some fun _ => EF.fin 1) = [EF.fin 0, EF.fin 0] := by
    norm_num [calculate_accessibility_scores_some, GravityModel.accessRatioMatrix,
      GravityModel.calculate_demand_potentials, GravityModel.demandMatrix, invertedPotentials,
      nansumList, TwoStepFCA, uniform_decay, EF.le, EF.mul, EF.add, EF.skipNan, EF.reciprocal,
      EF.pow, EF.isNan, EF.isInf, List.ofFn_succ, emptyCatchmentMatrix, Matrix.cons_val_zero,
      Matrix.cons_val_one, Matrix.head_cons, Matrix.cons_val_succ]
  rw [hval]
  simp

/-- C6: binding fails with an error exactly when some parameter the decay
function declares beyond the leading distance argument is absent from the
supplied mapping, the error names exactly the missing parameters; otherwise
binding succeeds, the bound parameters are exactly the supplied pairs whose
key the function declares, and a (non-fatal) warning is issued exactly for
each supplied key the function does not declare. -/
theorem bind_parameters_missing_error_extra_warning
    (paramNames : List String) (decay_params : List (String × ℚ)) :
    ((∃ k, k ∈ paramNames.drop 1 ∧ k ∉ decay_params.map Prod.fst) ↔
      ∃ e, bind_decay_function_parameters paramNames decay_params = .error e) ∧
    (∀ e, bind_decay_function_parameters paramNames decay_params = .error e →
      ∀ k, k ∈ e ↔ k ∈ paramNames.drop 1 ∧ k ∉ decay_params.map Prod.fst) ∧
    (∀ out, bind_decay_function_parameters paramNames decay_params = .ok out →
      (∀ kv, kv ∈ out.bound_params ↔ kv ∈ decay_params ∧ kv.1 ∈ paramNames) ∧
      (∀ k, k ∈ out.warnings ↔
        k ∈ decay_params.map Prod.fst ∧ k ∉ paramNames)) := by
  have key : ∀ k, (k ∈ (paramNames.drop 1).filter
      fun k => decide (k ∉ decay_params.map Prod.fst)) ↔
      (k ∈ paramNames.drop 1 ∧ k ∉ decay_params.map Prod.fst) := by
    intro k
    simp [List.mem_filter]
  have hwarnIff : ∀ k, (k ∈ ((decay_params.filter fun kv =>
      decide (kv.1 ∉ (decay_params.filter fun kv =>
        decide (kv.1 ∈ paramNames)).map Prod.fst)).map Prod.fst)) ↔
      (k ∈ decay_params.map Prod.fst ∧ k ∉ paramNames) := by
    intro k
    simp only [List.mem_map, List.mem_filter, decide_eq_true_eq]
    constructor
    · rintro ⟨kv, ⟨hkv, hnv⟩, rfl⟩
      refine ⟨⟨kv, hkv, rfl⟩, fun hmem => hnv ⟨kv, ⟨hkv, hmem⟩, rfl⟩⟩
    · rintro ⟨⟨kv, hkv, rfl⟩, hnp⟩
      refine ⟨kv, ⟨hkv, fun hval => ?_⟩, rfl⟩
      rcases hval with ⟨kv2, ⟨_, h2⟩, h3⟩
      exact hnp (h3 ▸ h2)
  by_cases hmiss : ((paramNames.drop 1).filter
      fun k => decide (k ∉ decay_params.map Prod.fst)) = []
  · have hbind : bind_decay_function_parameters paramNames decay_params
        = .ok { warnings := (decay_params.filter fun kv =>
                  decide (kv.1 ∉ (decay_params.filter fun kv =>
                    decide (kv.1 ∈ paramNames)).map Prod.fst)).map Prod.fst
                bound_params := decay_params.filter fun kv =>
                  decide (kv.1 ∈ paramNames) } := by
      simp only [bind_decay_function_parameters]
      rw [if_pos hmiss]
    refine ⟨⟨fun ⟨k, hk1, hk2⟩ => ?_, fun ⟨e, he⟩ => ?_⟩, fun e he => ?_, fun out hout => ?_⟩
    · have : k ∈ ((paramNames.drop 1).filter
          fun k => decide (k ∉ decay_params.map Prod.fst)) := (key k).2 ⟨hk1, hk2⟩
      rw [hmiss] at this
      exact absurd this (List.not_mem_nil k)
    · rw [hbind] at he
      exact absurd he (by simp)
    · rw [hbind] at he
      exact absurd he (by simp)
    · rw [hbind] at hout
      cases hout
      refine ⟨fun kv => ?_, hwarnIff⟩
      simp [List.mem_filter]
  · have hbind : bind_decay_function_parameters paramNames decay_params
        = .error ((paramNames.drop 1).filter
            fun k => decide (k ∉ decay_params.map Prod.fst)) := by
      simp only [bind_decay_function_parameters]
      rw [if_neg hmiss]
    refine ⟨⟨fun _ => ⟨_, hbind⟩, fun _ => ?_⟩, fun e he => ?_, fun out hout => ?_⟩
    · obtain ⟨k, hk⟩ := List.exists_mem_of_ne_nil _ hmiss
      exact ⟨k, (key k).1 hk⟩
    · rw [hbind] at he
      cases he
      exact key
    · rw [hbind] at hout
      exact absurd hout (by simp)

/-- Witness for C6, at the signature of `gaussian_decay`
(`['distance_array', 'sigma']`, as the repository's tests exercise it):
omitting `sigma` fails with an error naming it, while supplying the valid
`sigma` together with an undeclared `extra_param` succeeds, warns exactly
about `extra_param`, and binds exactly `sigma`. -/
theorem bind_parameters_witness :
    (∃ e, bind_decay_function_parameters ["distance_array", "sigma"] [] = .error e) ∧
    (∀ out, bind_decay_function_parameters ["distance_array", "sigma"]
        [("sigma", 1), ("extra_param", 1)] = .ok out →
      (("sigma", (1 : ℚ)) ∈ out.bound_params ∧
        "extra_param" ∈ out.warnings ∧ "sigma" ∉ out.warnings)) := by
  constructor
  · exact (bind_parameters_missing_error_extra_warning
      ["distance_array", "sigma"] []).1.1 ⟨"sigma", by simp, by simp⟩
  · intro out hout
    have h := (bind_parameters_missing_error_extra_warning
      ["distance_array", "sigma"] [("sigma", 1), ("extra_param", 1)]).2.2 out hout
    refine ⟨(h.1 ("sigma", 1)).2 ⟨by simp, by simp⟩, (h.2 ("extra_param")).2 ⟨by simp, by simp⟩,
      fun hc => ?_⟩
    have := (h.2 ("sigma")).1 hc
    simp at this

/-- C10: the state-passing translation of the binder leaves the supplied
`decay_params` mapping exactly as it was (all the operations the source
performs on the dict are reads), and computes the same result as the direct
functional reading; consequently constructing any number of engines leaves
every supplied mapping, including the shared mutable default `{}`,
unchanged. -/
theorem bind_parameters_leaves_decay_params_unchanged
    (paramNames : List String) (decay_params : List (String × ℚ)) :
    (bind_decay_function_parameters_state paramNames decay_params).2 = decay_params ∧
    (bind_decay_function_parameters_state paramNames decay_params).1
      = bind_decay_function_parameters paramNames decay_params := by
  have hfold : ∀ (l : List String) (acc1 : List String) (dd : List (String × ℚ)),
      l.foldl missingStep (acc1, dd)
        = (acc1 ++ l.filter fun k => decide (k ∉ dd.map Prod.fst), dd) := by
    intro l
    induction l with
    | nil => intro acc1 dd; simp
    | cons k t ih =>
      intro acc1 dd
      by_cases hk : k ∈ dd.map Prod.fst <;>
        simp [List.foldl_cons, missingStep, dictContains, hk, ih]
  constructor <;>
    · simp only [bind_decay_function_parameters_state, bind_decay_function_parameters,
        hfold, dictItems, List.nil_append]
      split <;> rfl
